import Mathlib

/-!
Shallow embedding of `packages/ckeditor5-indent/src/indentblock.ts` (the
`IndentBlock` plugin of this CKEditor5 fork): the conversion rules of the
offset strategy, the strategy selection in `init`, the class-conversion
definition builder, and the schema/command wiring in `afterInit`.
-/

/-- A view element as used by the upcast rule of `indentblock.ts`: its tag
name and its inline styles, a map from style property name to value
(represented as an association list). This is the surface the source touches
via `viewElement.is( 'element', 'li' )` and `viewElement.getStyle( ... )`. -/
structure ViewElement where
  name : String
  styles : List (String × String)
  deriving DecidableEq

/-- Reading one style property of a view element (`viewElement.getStyle`):
the value stored for the property, if any. -/
def ViewElement.getStyle (el : ViewElement) (prop : String) : Option String :=
  el.styles.lookup prop

/-- JavaScript truthiness of a possibly-absent string: `undefined` and the
empty string are falsy, every other string is truthy. Used for the
`indentBlock.attribute ? ... : ...` test on line 129 of the source. -/
def jsTruthyStr : Option String → Bool
  | none => false
  | some s => s != ""

/-- Embeds the test of the regular expression written on line 138 of the
source, `[\s\S]+` with no anchors: the character class `[\s\S]` accepts every
character (whitespace or non-whitespace), so the unanchored test succeeds on
exactly the non-empty strings. -/
def regexAnyCharOneOrMore (s : String) : Bool :=
  s != ""

/-- Line 129 of the source, the property both offset-mode conversion rules
are built over: `indentBlock.attribute ? 'text-indent' :
locale.contentLanguageDirection === 'rtl' ? 'margin-right' : 'margin-left'`.
The first argument embeds `editor.indentBlock.attribute`, the second
`locale.contentLanguageDirection`. -/
def marginProperty (indentBlockAttribute : Option String) (contentLanguageDirection : String) : String :=
  if jsTruthyStr indentBlockAttribute then "text-indent"
  else if contentLanguageDirection == "rtl" then "margin-right"
  else "margin-left"

/-- The matcher of the registered upcast rule (source lines 136-140): the
view pattern `styles: [marginProperty]: regex` matches an element when the
element carries the style property and its value passes the regular
expression `[\s\S]+`. The application of a style pattern to an element is the
conversion-registry collaborator described by the spec (a rule is a matcher
plus a transform, the matcher a view style pattern); the pattern itself is
from the source. -/
def upcastMatches (marginProp : String) (el : ViewElement) : Bool :=
  match el.getStyle marginProp with
  | some s => regexAnyCharOneOrMore s
  | none => false

/-- The model value callback of the upcast rule (source lines 143-148): on a
`li` view element the callback returns `undefined` (no value); on any other
element it returns `viewElement.getStyle( marginProperty )`. -/
def upcastValue (marginProp : String) (el : ViewElement) : Option String :=
  if el.name == "li" then none
  else el.getStyle marginProp

/-- The whole upcast rule: the value callback runs only on elements the
matcher accepts, and an absent callback result leaves the `blockIndent`
model attribute unset (`none`). -/
def upcast (marginProp : String) (el : ViewElement) : Option String :=
  if upcastMatches marginProp el then upcastValue marginProp el else none

/-- The view attribute descriptor a downcast callback returns: an attribute
key and, the key being `style`, the style properties to write. -/
structure ViewStyleAttribute where
  key : String
  value : List (String × String)
  deriving DecidableEq

/-- The downcast rule of the offset strategy (source lines 152-162): for a
model attribute value it returns the descriptor with key `style` and the
single style property `marginProperty` set to that value. -/
def downcast (marginProp : String) (v : String) : ViewStyleAttribute :=
  { key := "style", value := [(marginProp, v)] }

/-- The `indentBlock` configuration namespace (source `IndentBlockConfig`):
fields `attribute` (named `attributeName` here because `attribute` is a Lean
keyword), `offset`, `unit` and `classes`, every one optional. -/
structure IndentBlockConfig where
  attributeName : Option String
  offset : Option Int
  unit : Option String
  classes : Option (List String)
  deriving DecidableEq

/-- JavaScript truthiness of the `configuration.classes &&
configuration.classes.length` test on line 63 of the source: an absent list
is falsy, a present list is truthy exactly when its length is non-zero. -/
def jsTruthyClasses : Option (List String) → Bool
  | none => false
  | some l => l.length != 0

/-- The constructor parameters of `IndentUsingOffset` as built on source
lines 79-91: direction plus the `attribute`, `offset` and `unit`
configuration values (the source's `!` postfix is a type-level non-null
assertion and leaves the runtime value unchanged, so the options are kept). -/
structure IndentUsingOffset where
  direction : String
  attributeName : Option String
  offset : Option Int
  unit : Option String
  deriving DecidableEq

/-- The constructor parameters of `IndentUsingClasses` as built on source
lines 66-74: direction plus the configured class list. -/
structure IndentUsingClasses where
  direction : String
  classes : List String
  deriving DecidableEq

/-- Which behavior a registered `IndentBlockCommand` was given. -/
inductive IndentBehavior where
  | usingOffset : IndentUsingOffset → IndentBehavior
  | usingClasses : IndentUsingClasses → IndentBehavior
  deriving DecidableEq

/-- A view attribute descriptor of the class conversion (source
`AttributeDescriptor` restricted to the shape built on lines 182-185). -/
structure AttributeDescriptor where
  key : String
  value : List String
  deriving DecidableEq

/-- The definition object `_setupConversionUsingClasses` assembles and hands
to `conversion.attributeToAttribute` (source lines 168-188). -/
structure ClassesConversionDefinition where
  modelKey : String
  modelValues : List String
  view : List (String × AttributeDescriptor)
  deriving DecidableEq

/-- Source lines 168-188: for each configured class name, in order, push the
name onto `model.values` and map it to a view `class` attribute holding
exactly that name. -/
def setupConversionUsingClasses (classes : List String) : ClassesConversionDefinition :=
  { modelKey := "blockIndent"
    modelValues := classes
    view := classes.map (fun className => (className, { key := "class", value := [className] })) }

/-- Which conversion rules `init` registered: the offset pair of rules (both
closed over the computed margin property) or the single class-conversion
definition. -/
inductive ConversionSetup where
  | offsetRules : String → ConversionSetup
  | classesRules : ClassesConversionDefinition → ConversionSetup
  deriving DecidableEq

/-- Everything `init` registers on the editor: whether
`addStyleProcessorRules( addMarginRules )` ran, the conversion rules, and the
behaviors of the two commands added under `indentBlock` / `outdentBlock`. -/
structure InitResult where
  marginRulesAdded : Bool
  conversion : ConversionSetup
  indentBlockCommand : IndentBehavior
  outdentBlockCommand : IndentBehavior
  deriving DecidableEq

/-- The `else` branch of `init` (source lines 75-92): style processor margin
rules, the offset conversion pair over `marginProperty` (which reads
`editor.indentBlock.attribute` and the locale direction, not the
configuration), and two `IndentUsingOffset` commands built from the
configuration's `attribute` / `offset` / `unit`. -/
def initOffsetBranch (configuration : IndentBlockConfig)
    (editorIndentBlockAttribute : Option String) (contentLanguageDirection : String) : InitResult :=
  { marginRulesAdded := true
    conversion := .offsetRules (marginProperty editorIndentBlockAttribute contentLanguageDirection)
    indentBlockCommand := .usingOffset
      { direction := "forward", attributeName := configuration.attributeName
        offset := configuration.offset, unit := configuration.unit }
    outdentBlockCommand := .usingOffset
      { direction := "backward", attributeName := configuration.attributeName
        offset := configuration.offset, unit := configuration.unit } }

/-- Source lines 59-93 (`IndentBlock.init`): when `configuration.classes`
is present and non-empty, register the class conversion and two
`IndentUsingClasses` commands; otherwise take the offset branch. -/
def init (configuration : IndentBlockConfig)
    (editorIndentBlockAttribute : Option String) (contentLanguageDirection : String) : InitResult :=
  match configuration.classes with
  | some classes =>
    if classes.length != 0 then
      { marginRulesAdded := false
        conversion := .classesRules (setupConversionUsingClasses classes)
        indentBlockCommand := .usingClasses { direction := "forward", classes := classes }
        outdentBlockCommand := .usingClasses { direction := "backward", classes := classes } }
    else initOffsetBranch configuration editorIndentBlockAttribute contentLanguageDirection
  | none => initOffsetBranch configuration editorIndentBlockAttribute contentLanguageDirection

/-- Property bag attached to a schema attribute name, restricted to the one
property the source sets (`isFormatting`). -/
structure SchemaAttrProperties where
  isFormatting : Bool
  deriving DecidableEq

/-- Modelled from the spec: the schema registry is an external collaborator
whose interface is `isRegistered(elementName)`, `extend(elementName,
allowAttributes)` and `setAttributeProperties(attributeName, props)`; a
schema entry maps an element name to its set of allowed attribute names, and
an attribute name to a property bag. The state holds the registered element
names, the (element name, allowed attribute name) pairs, and the per-attribute
property bags. -/
structure Schema where
  registered : List String
  allowedAttributes : List (String × String)
  attrProperties : List (String × SchemaAttrProperties)
  deriving DecidableEq

/-- Modelled from the spec: `isRegistered(elementName) -> bool`. -/
def Schema.isRegistered (s : Schema) (elementName : String) : Bool :=
  s.registered.contains elementName

/-- Modelled from the spec: `extend(elementName, allowAttributes)` is
additive — it allows one more attribute on the element and changes nothing
else (in particular not the registration status of any element). -/
def Schema.extend (s : Schema) (elementName attrName : String) : Schema :=
  { s with allowedAttributes := s.allowedAttributes ++ [(elementName, attrName)] }

/-- Modelled from the spec: `setAttributeProperties(attributeName, props)`
records the property bag for the attribute name, superseding any earlier bag
for the same attribute. -/
def Schema.setAttributeProperties (s : Schema) (attrName : String) (props : SchemaAttrProperties) : Schema :=
  { s with attrProperties :=
      (attrName, props) :: s.attrProperties.filter (fun entry => entry.1 != attrName) }

/-- The attribute names a schema allows on one element name. -/
def Schema.allowedFor (s : Schema) (elementName : String) : List String :=
  (s.allowedAttributes.filter (fun entry => entry.1 == elementName)).map Prod.snd

/-- Source line 18: the element names used when no heading configuration is
present. -/
def DEFAULT_ELEMENTS : List String :=
  ["paragraph", "heading1", "heading2", "heading3", "heading4", "heading5", "heading6"]

/-- Source lines 106-108: `configuredElements || DEFAULT_ELEMENTS`, where
`configuredElements` is `options && options.map( option => option.model )`.
Any present array — an empty one included — is truthy in JavaScript, so the
default list is used only when `heading.options` is absent. -/
def knownElements (headingOptionModels : Option (List String)) : List String :=
  match headingOptionModels with
  | some models => models
  | none => DEFAULT_ELEMENTS

/-- Source lines 110-114, the resulting schema: walk the known element names
in order and, for each name the current schema has registered, extend it with
`allowAttributes: 'blockIndent'`; unregistered names are skipped. -/
def extendRegisteredElements (s : Schema) : List String → Schema
  | [] => s
  | elementName :: rest =>
    if s.isRegistered elementName then
      extendRegisteredElements (s.extend elementName "blockIndent") rest
    else
      extendRegisteredElements s rest

/-- Source lines 110-114, the trace: the element names on which
`schema.extend` is actually called during the same walk. -/
def extendedElements (s : Schema) : List String → List String
  | [] => []
  | elementName :: rest =>
    if s.isRegistered elementName then
      elementName :: extendedElements (s.extend elementName "blockIndent") rest
    else
      extendedElements s rest

/-- The editor state `afterInit` reads and writes: the schema, the model
names of the `heading.options` configuration (absent when that configuration
is not defined), and the child-command name lists of the `indent` and
`outdent` multi-commands. -/
structure EditorAfterInitState where
  schema : Schema
  headingOptionModels : Option (List String)
  indentChildCommands : List String
  outdentChildCommands : List String
  deriving DecidableEq

/-- Source lines 98-120 (`IndentBlock.afterInit`): extend the schema on the
registered known elements, set `isFormatting: true` on the `blockIndent`
attribute, and register the `indentBlock` / `outdentBlock` commands as
children of the `indent` / `outdent` multi-commands. -/
def afterInit (st : EditorAfterInitState) : EditorAfterInitState :=
  { st with
    schema :=
      (extendRegisteredElements st.schema (knownElements st.headingOptionModels)).setAttributeProperties
        "blockIndent" { isFormatting := true }
    indentChildCommands := st.indentChildCommands ++ ["indentBlock"]
    outdentChildCommands := st.outdentChildCommands ++ ["outdentBlock"] }

/-- The configuration literal the constructor passes to `config.define`
(source lines 35-39). Line 36 of the source reads `attribute：'margin-left'`
with U+FF1A, a fullwidth colon, in place of the ASCII colon; that token
sequence is not valid TypeScript, so no `attribute` default is validly
defined and the literal contributes only the `offset` and `unit` defaults. -/
def constructorDefinedDefaults : IndentBlockConfig :=
  { attributeName := none, offset := some 40, unit := some "px", classes := none }

/-- The default configuration the spec claims the constructor defines:
`attribute` defaulting to `margin-left`, `offset` to `40`, `unit` to `px`.
Written from the spec's words, to be compared with
`constructorDefinedDefaults`. -/
def specClaimedDefaults : IndentBlockConfig :=
  { attributeName := some "margin-left", offset := some 40, unit := some "px", classes := none }

/-- C10: in offset mode the style property is selected independently of what
the configured attribute name is: whenever `editor.indentBlock.attribute` is
truthy (any non-empty string `a`) the property is `text-indent`; when it is
falsy (`undefined` or the empty string) the property is `margin-right` for an
`rtl` content language direction and `margin-left` otherwise. -/
theorem marginPropertySelection (a dir : String) (ha : a ≠ "") :
    marginProperty (some a) dir = "text-indent" ∧
    marginProperty (some "") dir = marginProperty none dir ∧
    (dir = "rtl" → marginProperty none dir = "margin-right") ∧
    (dir ≠ "rtl" → marginProperty none dir = "margin-left") := by
  have h1 : (a != "") = true := bne_iff_ne.mpr ha
  refine ⟨by simp [marginProperty, jsTruthyStr, h1], by simp [marginProperty, jsTruthyStr], ?_, ?_⟩
  · intro h
    simp [marginProperty, jsTruthyStr, h]
  · intro h
    have h2 : (dir == "rtl") = false := beq_eq_false_iff_ne.mpr h
    simp [marginProperty, jsTruthyStr, h2]

/-- Witness for `marginPropertySelection` at concrete inputs. -/
theorem marginPropertySelection_witness :
    marginProperty (some "margin-left") "ltr" = "text-indent" ∧
    marginProperty none "rtl" = "margin-right" ∧
    marginProperty none "ltr" = "margin-left" := by
  have h := marginPropertySelection "margin-left" "ltr" (by decide)
  have h2 := marginPropertySelection "margin-left" "rtl" (by decide)
  exact ⟨h.1, h2.2.2.1 rfl, h.2.2.2 (by decide)⟩

/-- C1, counterexample: with `editor.indentBlock.attribute` equal to the
configured default attribute name `margin-left`, the property both rules use
is `text-indent`, so downcast of `40px` does not put `margin-left` in the
emitted style attribute and upcast does not match on a `margin-left` style. -/
theorem configuredAttributeNotUsed_counterexample :
    marginProperty (some "margin-left") "ltr" = "text-indent" ∧
    (downcast (marginProperty (some "margin-left") "ltr") "40px").value.lookup "margin-left" = none ∧
    upcastMatches (marginProperty (some "margin-left") "ltr")
      ⟨"p", [("margin-left", "40px")]⟩ = false := by
  decide

/-- C1, amended: in offset mode the style property shared by the two rules is
`marginProperty` (not the configured attribute name): for every model value
`v` downcast emits a `style` attribute carrying exactly that property set to
`v`, and the upcast match depends only on the element's value of that
property. -/
theorem downcastEmitsMarginProperty (eAttr : Option String) (dir v : String) :
    downcast (marginProperty eAttr dir) v =
      { key := "style", value := [(marginProperty eAttr dir, v)] } ∧
    (downcast (marginProperty eAttr dir) v).value.lookup (marginProperty eAttr dir) = some v ∧
    (∀ el el' : ViewElement,
      el.getStyle (marginProperty eAttr dir) = el'.getStyle (marginProperty eAttr dir) →
      upcastMatches (marginProperty eAttr dir) el = upcastMatches (marginProperty eAttr dir) el') := by
  refine ⟨rfl, by simp [downcast, List.lookup], ?_⟩
  intro el el' h
  simp [upcastMatches, h]

/-- Witness for `downcastEmitsMarginProperty` at concrete inputs. -/
theorem downcastEmitsMarginProperty_witness :
    (downcast (marginProperty none "ltr") "40px").value.lookup (marginProperty none "ltr") =
      some "40px" ∧
    upcastMatches (marginProperty none "ltr") ⟨"p", [("margin-left", "40px")]⟩ =
      upcastMatches (marginProperty none "ltr") ⟨"h2", [("margin-left", "40px"), ("color", "red")]⟩ := by
  have h := downcastEmitsMarginProperty none "ltr" "40px"
  exact ⟨h.2.1, h.2.2 _ _ (by decide)⟩

/-- C4: the upcast value callback yields no model value on every `li` view
element (so the whole upcast rule yields none there), while on every non-`li`
element it yields exactly the element's raw style value for the property —
in particular, on a matched non-`li` element the rule produces that raw
string as the `blockIndent` value. -/
theorem upcastListItemExemption (marginProp : String) (el : ViewElement) :
    (el.name = "li" → upcastValue marginProp el = none ∧ upcast marginProp el = none) ∧
    (el.name ≠ "li" → upcastValue marginProp el = el.getStyle marginProp) ∧
    (el.name ≠ "li" → upcastMatches marginProp el = true →
      upcast marginProp el = el.getStyle marginProp) := by
  refine ⟨?_, ?_, ?_⟩
  · intro h
    have hb : (el.name == "li") = true := beq_iff_eq.mpr h
    exact ⟨by simp [upcastValue, hb], by simp [upcast, upcastValue, hb]⟩
  · intro h
    have hb : (el.name == "li") = false := beq_eq_false_iff_ne.mpr h
    simp [upcastValue, hb]
  · intro h hm
    have hb : (el.name == "li") = false := beq_eq_false_iff_ne.mpr h
    simp [upcast, upcastValue, hb, hm]

/-- Witness for `upcastListItemExemption`: `margin-left: 40px` on `li` gives
no value, the same style on `p` gives `40px`. -/
theorem upcastListItemExemption_witness :
    upcast "margin-left" ⟨"li", [("margin-left", "40px")]⟩ = none ∧
    upcast "margin-left" ⟨"p", [("margin-left", "40px")]⟩ = some "40px" := by
  have h1 := upcastListItemExemption "margin-left" ⟨"li", [("margin-left", "40px")]⟩
  have h2 := upcastListItemExemption "margin-left" ⟨"p", [("margin-left", "40px")]⟩
  refine ⟨(h1.1 rfl).2, ?_⟩
  have h3 := h2.2.2 (by decide) (by decide)
  rw [h3]
  decide

/-- C7, counterexample: a `p` element whose style value for the property is
the single space (whitespace-only, non-empty) is matched by the pattern
`[\s\S]+` and acquires the `blockIndent` value `" "`, against the claim that
a whitespace-only value is not matched. -/
theorem whitespaceValueMatches_counterexample :
    upcastMatches "margin-left" ⟨"p", [("margin-left", " ")]⟩ = true ∧
    upcast "margin-left" ⟨"p", [("margin-left", " ")]⟩ = some " " := by
  decide

/-- C7, amended: the upcast rule matches a view element exactly when the
property is present with a non-empty value (whitespace-only values
included, since `[\s\S]` accepts every character); an unmatched element
acquires no `blockIndent` value. -/
theorem upcastMatchesNonEmpty (marginProp : String) (el : ViewElement) :
    (upcastMatches marginProp el = true ↔
      ∃ s, el.getStyle marginProp = some s ∧ s ≠ "") ∧
    (upcastMatches marginProp el = false → upcast marginProp el = none) := by
  constructor
  · cases h : el.getStyle marginProp with
    | none => simp [upcastMatches, h]
    | some s => simp [upcastMatches, h, regexAnyCharOneOrMore]
  · intro h
    simp [upcast, h]

/-- Witness for `upcastMatchesNonEmpty` at concrete inputs. -/
theorem upcastMatchesNonEmpty_witness :
    (upcastMatches "margin-left" ⟨"p", [("margin-left", "40px")]⟩ = true ↔
      ∃ s, (ViewElement.mk "p" [("margin-left", "40px")]).getStyle "margin-left" = some s ∧ s ≠ "") ∧
    upcast "text-indent" ⟨"p", []⟩ = none := by
  have h1 := upcastMatchesNonEmpty "margin-left" ⟨"p", [("margin-left", "40px")]⟩
  have h2 := upcastMatchesNonEmpty "text-indent" ⟨"p", []⟩
  exact ⟨h1.1, h2.2 (by decide)⟩

/-- C3: round-trip of the offset conversion pair. For every non-empty value
`v` and non-`li` element name, upcasting the element the downcast of `v`
produces gives back exactly `v`; and whenever upcast on a non-`li` element
yields a value `w`, downcasting `w` writes to the margin property exactly the
style value the original element had there. -/
theorem offsetConversionRoundTrip (eAttr : Option String) (dir elName v : String)
    (hname : elName ≠ "li") (hv : v ≠ "") :
    upcast (marginProperty eAttr dir)
      ⟨elName, (downcast (marginProperty eAttr dir) v).value⟩ = some v ∧
    (∀ el : ViewElement, el.name = elName → ∀ w,
      upcast (marginProperty eAttr dir) el = some w →
      (downcast (marginProperty eAttr dir) w).value.lookup (marginProperty eAttr dir) =
        el.getStyle (marginProperty eAttr dir)) := by
  constructor
  · have h1 : (v != "") = true := bne_iff_ne.mpr hv
    have h2 : (elName == "li") = false := beq_eq_false_iff_ne.mpr hname
    simp [upcast, upcastMatches, upcastValue, ViewElement.getStyle, downcast,
      regexAnyCharOneOrMore, List.lookup, h1, h2]
  · intro el hel w hup
    have h2 : (el.name == "li") = false := beq_eq_false_iff_ne.mpr (hel ▸ hname)
    by_cases hm : upcastMatches (marginProperty eAttr dir) el = true
    · have hval : upcastValue (marginProperty eAttr dir) el = some w := by
        simpa [upcast, hm] using hup
      have hs : el.getStyle (marginProperty eAttr dir) = some w := by
        simpa [upcastValue, h2] using hval
      simp [downcast, List.lookup, hs]
    · have hm' : upcastMatches (marginProperty eAttr dir) el = false := by
        simpa using hm
      simp [upcast, hm'] at hup

/-- Witness for `offsetConversionRoundTrip` at concrete inputs. -/
theorem offsetConversionRoundTrip_witness :
    upcast (marginProperty none "ltr")
      ⟨"p", (downcast (marginProperty none "ltr") "40px").value⟩ = some "40px" ∧
    (downcast (marginProperty none "ltr") "40px").value.lookup (marginProperty none "ltr") =
      (ViewElement.mk "p" (downcast (marginProperty none "ltr") "40px").value).getStyle
        (marginProperty none "ltr") := by
  have h := offsetConversionRoundTrip none "ltr" "p" "40px" (by decide) (by decide)
  exact ⟨h.1, h.2 ⟨"p", (downcast (marginProperty none "ltr") "40px").value⟩ rfl "40px" h.1⟩

/-- C2: when `classes` is configured as a non-empty list, `init` registers
only the class conversion and two `IndentUsingClasses` commands, does not add
the margin style-processor rules, and the whole result is independent of the
`attribute` / `offset` / `unit` configuration values and of the editor state
the offset branch would read. -/
theorem initClassesIgnoresOffsetConfig (cfg : IndentBlockConfig) (l : List String)
    (eAttr : Option String) (dir : String) (hc : cfg.classes = some l) (hl : l ≠ []) :
    (init cfg eAttr dir).conversion = .classesRules (setupConversionUsingClasses l) ∧
    (init cfg eAttr dir).marginRulesAdded = false ∧
    (init cfg eAttr dir).indentBlockCommand =
      .usingClasses { direction := "forward", classes := l } ∧
    (init cfg eAttr dir).outdentBlockCommand =
      .usingClasses { direction := "backward", classes := l } ∧
    (∀ (cfg₂ : IndentBlockConfig) (eAttr₂ : Option String) (dir₂ : String),
      cfg₂.classes = some l → init cfg₂ eAttr₂ dir₂ = init cfg eAttr dir) := by
  have hlen : (l.length != 0) = true :=
    bne_iff_ne.mpr (fun h => hl (List.length_eq_zero.mp h))
  refine ⟨?_, ?_, ?_, ?_, ?_⟩
  · simp [init, hc, hlen]
  · simp [init, hc, hlen]
  · simp [init, hc, hlen]
  · simp [init, hc, hlen]
  · intro cfg₂ eAttr₂ dir₂ hc₂
    simp [init, hc, hc₂, hlen]

/-- Witness for `initClassesIgnoresOffsetConfig`: two configurations that
agree on `classes` but differ on every other value (and on the editor
arguments) yield the same registrations. -/
theorem initClassesIgnoresOffsetConfig_witness :
    (init ⟨none, none, none, some ["indent-1"]⟩ none "ltr").marginRulesAdded = false ∧
    init ⟨some "margin-left", some 40, some "px", some ["indent-1"]⟩ (some "x") "rtl" =
      init ⟨none, none, none, some ["indent-1"]⟩ none "ltr" := by
  have h := initClassesIgnoresOffsetConfig ⟨none, none, none, some ["indent-1"]⟩
    ["indent-1"] none "ltr" rfl (by decide)
  exact ⟨h.2.1, h.2.2.2.2 _ _ _ rfl⟩

/-- C8, counterexample: with `classes` defined as the empty list, `init`
takes the offset branch — `classes && classes.length` is falsy on an empty
array — registering the offset conversion and offset commands. -/
theorem emptyClassesUsesOffset_counterexample :
    (init ⟨some "margin-left", some 40, some "px", some []⟩ none "ltr").conversion =
      .offsetRules "margin-left" ∧
    (init ⟨some "margin-left", some 40, some "px", some []⟩ none "ltr").indentBlockCommand =
      .usingOffset ⟨"forward", some "margin-left", some 40, some "px"⟩ ∧
    (init ⟨some "margin-left", some 40, some "px", some []⟩ none "ltr").marginRulesAdded = true := by
  decide

/-- C8, amended: `init` sets up the class strategy exactly when `classes` is
defined and non-empty; a missing or empty `classes` list yields the offset
strategy. -/
theorem initStrategySwitch (cfg : IndentBlockConfig) (eAttr : Option String) (dir : String) :
    ((∃ l, cfg.classes = some l ∧ l ≠ []) ↔ (init cfg eAttr dir).marginRulesAdded = false) ∧
    ((∃ l, cfg.classes = some l ∧ l ≠ []) →
      (init cfg eAttr dir).conversion =
        .classesRules (setupConversionUsingClasses (cfg.classes.getD []))) ∧
    (¬ (∃ l, cfg.classes = some l ∧ l ≠ []) →
      (init cfg eAttr dir).conversion = .offsetRules (marginProperty eAttr dir) ∧
      (init cfg eAttr dir).marginRulesAdded = true) := by
  rcases hc : cfg.classes with _ | l
  · simp [init, hc, initOffsetBranch]
  · by_cases hl : l = []
    · subst hl
      simp [init, hc, initOffsetBranch]
    · have hlen : (l.length != 0) = true :=
        bne_iff_ne.mpr (fun h => hl (List.length_eq_zero.mp h))
      simp [init, hc, hlen, hl]

/-- Witness for `initStrategySwitch` at concrete inputs. -/
theorem initStrategySwitch_witness :
    (init ⟨none, none, none, some ["a"]⟩ none "ltr").marginRulesAdded = false ∧
    (init ⟨none, none, none, none⟩ none "ltr").conversion =
      .offsetRules (marginProperty none "ltr") := by
  have h1 := initStrategySwitch ⟨none, none, none, some ["a"]⟩ none "ltr"
  have h2 := initStrategySwitch ⟨none, none, none, none⟩ none "ltr"
  exact ⟨h1.1.mp ⟨["a"], rfl, by decide⟩, (h2.2.2 (by simp)).1⟩

theorem extendRegisteredElements_registered (names : List String) :
    ∀ s : Schema, (extendRegisteredElements s names).registered = s.registered := by
  induction names with
  | nil => intro s; rfl
  | cons m rest ih =>
    intro s
    by_cases hm : s.isRegistered m = true
    · simp only [extendRegisteredElements, if_pos hm]
      rw [ih]
      rfl
    · simp only [extendRegisteredElements, if_neg hm]
      exact ih s

theorem mem_extendedElements_registered (names : List String) :
    ∀ (s : Schema) (n : String), n ∈ extendedElements s names → s.isRegistered n = true := by
  induction names with
  | nil =>
    intro s n h
    simp [extendedElements] at h
  | cons m rest ih =>
    intro s n h
    by_cases hm : s.isRegistered m = true
    · simp only [extendedElements, if_pos hm] at h
      rcases List.mem_cons.mp h with rfl | h'
      · exact hm
      · have := ih _ _ h'
        simpa [Schema.isRegistered, Schema.extend] using this
    · simp only [extendedElements, if_neg hm] at h
      exact ih _ _ h

theorem allowedFor_extend_ne (s : Schema) (m a n : String) (h : (m == n) = false) :
    (s.extend m a).allowedFor n = s.allowedFor n := by
  simp [Schema.extend, Schema.allowedFor, List.filter_append, h]

theorem extendRegisteredElements_allowedFor (names : List String) :
    ∀ (s : Schema) (n : String), s.isRegistered n = false →
      (extendRegisteredElements s names).allowedFor n = s.allowedFor n := by
  induction names with
  | nil => intro s n _; rfl
  | cons m rest ih =>
    intro s n h
    by_cases hm : s.isRegistered m = true
    · simp only [extendRegisteredElements, if_pos hm]
      have hmn : (m == n) = false := by
        refine beq_eq_false_iff_ne.mpr ?_
        intro e
        rw [e, h] at hm
        cases hm
      have hreg : (s.extend m "blockIndent").isRegistered n = false := by
        simpa [Schema.isRegistered, Schema.extend] using h
      rw [ih _ _ hreg, allowedFor_extend_ne s m _ n hmn]
    · simp only [extendRegisteredElements, if_neg hm]
      exact ih _ _ h

/-- C6: for a known element name the schema has not registered, `afterInit`
leaves the schema unchanged at that name — `extend` is never called on it,
its allowed attributes (in particular `blockIndent`) are untouched, and it is
not raised to registered status; and every name `extend` is called on was
already registered beforehand. -/
theorem afterInitSchemaGating (st : EditorAfterInitState) (n : String)
    (_hmem : n ∈ knownElements st.headingOptionModels)
    (hreg : st.schema.isRegistered n = false) :
    n ∉ extendedElements st.schema (knownElements st.headingOptionModels) ∧
    (afterInit st).schema.isRegistered n = false ∧
    (afterInit st).schema.allowedFor n = st.schema.allowedFor n ∧
    ("blockIndent" ∉ st.schema.allowedFor n →
      "blockIndent" ∉ (afterInit st).schema.allowedFor n) ∧
    (∀ m ∈ extendedElements st.schema (knownElements st.headingOptionModels),
      st.schema.isRegistered m = true) := by
  have hall : (afterInit st).schema.allowedFor n = st.schema.allowedFor n := by
    show ((extendRegisteredElements st.schema (knownElements st.headingOptionModels)).setAttributeProperties
      "blockIndent" { isFormatting := true }).allowedFor n = st.schema.allowedFor n
    have h1 : ∀ (s : Schema) (a : String) (p : SchemaAttrProperties),
        (s.setAttributeProperties a p).allowedFor n = s.allowedFor n := fun _ _ _ => rfl
    rw [h1, extendRegisteredElements_allowedFor _ _ _ hreg]
  refine ⟨?_, ?_, hall, ?_, ?_⟩
  · intro hmemEx
    have := mem_extendedElements_registered _ _ _ hmemEx
    rw [hreg] at this
    cases this
  · show ((extendRegisteredElements st.schema (knownElements st.headingOptionModels)).setAttributeProperties
      "blockIndent" { isFormatting := true }).isRegistered n = false
    have h1 : ∀ (s : Schema) (a : String) (p : SchemaAttrProperties),
        (s.setAttributeProperties a p).isRegistered n = s.isRegistered n := fun _ _ _ => rfl
    rw [h1]
    show ((extendRegisteredElements st.schema (knownElements st.headingOptionModels)).registered.contains n) = false
    rw [extendRegisteredElements_registered]
    exact hreg
  · intro hnot
    rw [hall]
    exact hnot
  · intro m hm
    exact mem_extendedElements_registered _ _ _ hm

/-- Witness for `afterInitSchemaGating`: a schema with only `paragraph`
registered and no heading configuration; `heading1` is a known element but
unregistered, and it stays untouched. -/
theorem afterInitSchemaGating_witness :
    "heading1" ∉ extendedElements ⟨["paragraph"], [], []⟩ (knownElements none) ∧
    (afterInit ⟨⟨["paragraph"], [], []⟩, none, [], []⟩).schema.isRegistered "heading1" = false ∧
    (afterInit ⟨⟨["paragraph"], [], []⟩, none, [], []⟩).schema.allowedFor "heading1" =
      (⟨["paragraph"], [], []⟩ : Schema).allowedFor "heading1" := by
  have h := afterInitSchemaGating ⟨⟨["paragraph"], [], []⟩, none, [], []⟩ "heading1"
    (by decide) (by decide)
  exact ⟨h.1, h.2.1, h.2.2.1⟩

/-- C9: after `afterInit`, the `indentBlock` command is a registered child of
the `indent` multi-command and the `outdentBlock` command of the `outdent`
multi-command, and the `blockIndent` attribute carries the property
`isFormatting: true`. -/
theorem afterInitLinksCommands (st : EditorAfterInitState) :
    "indentBlock" ∈ (afterInit st).indentChildCommands ∧
    "outdentBlock" ∈ (afterInit st).outdentChildCommands ∧
    (afterInit st).schema.attrProperties.lookup "blockIndent" =
      some { isFormatting := true } := by
  refine ⟨?_, ?_, ?_⟩
  · simp [afterInit]
  · simp [afterInit]
  · simp [afterInit, Schema.setAttributeProperties, List.lookup]

/-- C5: the configuration literal of the constructor validly defines the
`offset` and `unit` defaults but, the colon of line 36 being the fullwidth
U+FF1A, not the `attribute` default, so the defined defaults differ from the
claimed triple of defaults. -/
theorem constructorDefaultsBroken :
    constructorDefinedDefaults.offset = some 40 ∧
    constructorDefinedDefaults.unit = some "px" ∧
    constructorDefinedDefaults.attributeName = none ∧
    constructorDefinedDefaults ≠ specClaimedDefaults := by
  decide
